import Mathlib

/-
Shallow embedding of the strato game engine (crate `strato`: src/card.rs,
src/player.rs, src/game.rs).  Rust `Vec<T>` is modelled as `List T` in the
same index order; `Vec::pop` removes the LAST element (`vecPop`),
`Vec::push` appends at the end.  Machine integers (`usize`) are `Nat`,
card values (`CardValue`, an enum for -2..=12) are `Int`.  The ambient
thread-local RNG is modelled as an explicit stream of naturals (`Rand`);
`gen_range` on an empty range is a Rust panic, modelled as `none`.
Fallible operations return `Except`/`Option`; operations on `&mut self`
that can fail mid-way return the (possibly partially mutated) state
together with the optional error, exactly as the Rust code leaves `self`.
-/

set_option maxRecDepth 100000

namespace Strato

/-- Rust `Vec::pop`: removes and returns the last element. -/
def vecPop : List α → Option (α × List α)
  | [] => none
  | [x] => some (x, [])
  | x :: y :: rest =>
    match vecPop (y :: rest) with
    | some (z, l) => some (z, x :: l)
    | none => none

/-- Model of `rand::thread_rng()`: an arbitrary stream of naturals plus a cursor.
Quantifying over all streams quantifies over all possible random outcomes. -/
structure Rand where
  f : Nat → Nat
  i : Nat

def Rand.next (r : Rand) : Nat := r.f r.i

def Rand.adv (r : Rand) : Rand := ⟨r.f, r.i + 1⟩

/-- Model of `rng.gen_range(lo..hi)`: any value in `[lo, hi)`; Rust panics on an
empty range, modelled as `none`. -/
def genRange (lo hi : Nat) (r : Rand) : Option (Nat × Rand) :=
  if lo < hi then some (lo + r.next % (hi - lo), r.adv) else none

/-- Model of `rng.gen_bool(1.0 / 2.0)`: either outcome is reachable by some stream. -/
def genBool (r : Rand) : Bool × Rand := (r.next % 2 == 0, r.adv)

/-- Card (src/card.rs).  `CardValue` is carried as the integer it converts
to/from (`impl From<i32> for CardValue`); scoring only ever uses that integer. -/
structure Card where
  value : Int
  flipped : Bool
  deriving DecidableEq, Repr

/-- `Card::new`: a face-down card of the given value. -/
def Card.new (v : Int) : Card := ⟨v, false⟩

/-- `Card::flip`: sets `flipped` to true. -/
def Card.flip (c : Card) : Card := ⟨c.value, true⟩

/-- `Deck::default`: ten full ascending runs of -2..=12, 150 cards. -/
def deckDefault : List Card :=
  ((List.range 10).map fun _ => (List.range 15).map fun n => Card.new ((n : Int) - 2)).flatten

/-- Empties up to `k` cards from the end of `hand` onto the end of `shuffled`
(the `for _ in 0..k { if let Some(card) = hand.pop() { shuffled.push(card) } }`
pattern of `Deck::shuffle`). -/
def moveN : Nat → List Card → List Card → List Card × List Card
  | 0, hand, shuffled => (hand, shuffled)
  | k + 1, hand, shuffled =>
    match vecPop hand with
    | none => (hand, shuffled)
    | some (c, hand') => moveN k hand' (shuffled ++ [c])

/-- Inner `loop` of `Deck::shuffle`: interleave pops of 1-3 cards from each
hand until both are empty.  The source loop terminates because each pass
removes at least one card; `fuel` is any upper bound on the number of passes
(the callers pass enough, which we prove). -/
def zipLoop : Nat → List Card → List Card → List Card → Rand → Option (List Card × Rand)
  | 0, _, _, _, _ => none
  | fuel + 1, left, right, shuffled, r =>
    if left = [] ∧ right = [] then some (shuffled, r)
    else
      match genRange 1 4 r with
      | none => none
      | some (lt, r1) =>
        let m1 := moveN lt left shuffled
        match genRange 1 4 r1 with
        | none => none
        | some (rt, r2) =>
          let m2 := moveN rt right m1.2
          zipLoop fuel m1.1 m2.1 m2.2 r2

/-- One pass of the outer `for _ in 0..times_to_shuffle` loop of `Deck::shuffle`,
iterated `times` times.  `middle` and `maxVar` are precomputed before the loop
in the source.  `checked_add`/`checked_sub` with `unwrap_or(middle)` are modelled
directly: `Nat` addition never overflows, and the subtraction falls back to
`middle` when it would underflow. -/
def shuffleRounds : Nat → List Card → Nat → Nat → Rand → Option (List Card × Rand)
  | 0, hand, _, _, r => some (hand, r)
  | times + 1, hand, middle, maxVar, r =>
    match genRange 0 maxVar r with
    | none => none
    | some (variance, r1) =>
      let br := genBool r1
      let guess := if br.1 then middle + variance
        else if variance ≤ middle then middle - variance else middle
      -- `split_off(guess)`: keeps `[0, guess)`, returns `[guess, len)`.
      let left := hand.take guess
      let right := hand.drop guess
      match zipLoop (left.length + right.length + 1) left right [] br.2 with
      | none => none
      | some (sh, r3) => shuffleRounds times sh middle maxVar r3

/-- Rust `Vec::swap i j` (reads both, writes both).  The source panics when an
index is out of bounds; the callers below only produce in-bounds indices. -/
def listSwap (l : List α) (i j : Nat) : List α :=
  match l.get? i, l.get? j with
  | some a, some b => (l.set i b).set j a
  | _, _ => l

/-- Final `for _ in 0..number_of_swaps` loop of `Deck::shuffle`: `size` is the
size of the untouched `self.0`, i.e. the original deck length. -/
def swapsLoop : Nat → List Card → Nat → Rand → Option (List Card)
  | 0, hand, _, _ => some hand
  | k + 1, hand, size, r =>
    match genRange 0 size r with
    | none => none
    | some (first, r1) =>
      match genRange 0 size r1 with
      | none => none
      | some (second, r2) => swapsLoop k (listSwap hand first second) size r2

/-- `Deck::shuffle` (src/card.rs): 4-7 riffle passes around the middle with
variance below a tenth of the size, then 4-11 random swaps.  Returns `none`
exactly when the source panics (a `gen_range` over an empty range). -/
def shuffle (deck : List Card) (r : Rand) : Option (List Card) :=
  match genRange 4 8 r with
  | none => none
  | some (times, r1) =>
    let middle := deck.length / 2
    let maxVar := deck.length / 10
    match shuffleRounds times deck middle maxVar r1 with
    | none => none
    | some (hand, r2) =>
      match genRange 4 12 r2 with
      | none => none
      | some (numSwaps, r3) => swapsLoop numSwaps hand deck.length r3

/-- Errors of spread operations (src/card.rs `SpreadActionError`); the string
payload is the operation name interpolated into the message. -/
inductive SpreadActionError where
  | RowDoesntExist (op : String)
  | ColumnDoesntExist (op : String)
  | NoCardFound
  | SpotTaken
  | CardAlreadyFlipped
  deriving DecidableEq, Repr

/-- `PlayerSpread` (src/card.rs): a 3-row by 4-column grid of optional cards,
`[[Option<Card>; 4]; 3]`, modelled as a list of rows. -/
structure PlayerSpread where
  grid : List (List (Option Card))
  deriving DecidableEq, Repr

/-- `PlayerSpread::new`: all twelve slots empty. -/
def PlayerSpread.new : PlayerSpread :=
  ⟨[[none, none, none, none], [none, none, none, none], [none, none, none, none]]⟩

/-- The cell at a row and column, `none` when the indices fall outside the grid
(the source's chained `get` calls). -/
def PlayerSpread.cellAt (sp : PlayerSpread) (row column : Nat) : Option (Option Card) :=
  match sp.grid.get? row with
  | none => none
  | some rw => rw.get? column

/-- `PlayerSpread::take_from`: removes and returns the card at a slot. -/
def PlayerSpread.take_from (sp : PlayerSpread) (row column : Nat) :
    Except SpreadActionError (Card × PlayerSpread) :=
  match sp.grid.get? row with
  | none => .error (.RowDoesntExist "take")
  | some rw =>
    match rw.get? column with
    | none => .error (.ColumnDoesntExist "take")
    | some cell =>
      match cell with
      | none => .error .NoCardFound
      | some card => .ok (card, ⟨sp.grid.set row (rw.set column none)⟩)

/-- `PlayerSpread::place_at`: stores a card in an empty slot. -/
def PlayerSpread.place_at (sp : PlayerSpread) (card : Card) (row column : Nat) :
    Except SpreadActionError PlayerSpread :=
  match sp.grid.get? row with
  | none => .error (.RowDoesntExist "place")
  | some rw =>
    match rw.get? column with
    | none => .error (.ColumnDoesntExist "place")
    | some cell =>
      match cell with
      | some _ => .error .SpotTaken
      | none => .ok ⟨sp.grid.set row (rw.set column (some card))⟩

/-- `PlayerSpread::flip_at`: flips a present, still face-down card in place. -/
def PlayerSpread.flip_at (sp : PlayerSpread) (row column : Nat) :
    Except SpreadActionError PlayerSpread :=
  match sp.grid.get? row with
  | none => .error (.RowDoesntExist "flip")
  | some rw =>
    match rw.get? column with
    | none => .error (.ColumnDoesntExist "flip")
    | some cell =>
      match cell with
      | none => .error .NoCardFound
      | some card =>
        if card.flipped then .error .CardAlreadyFlipped
        else .ok ⟨sp.grid.set row (rw.set column (some card.flip))⟩

/-- `PlayerSpread::remaining_cards` collected into a list: the present cards of
the grid in row-major order. -/
def PlayerSpread.remainList (sp : PlayerSpread) : List Card :=
  sp.grid.flatten.filterMap id

/-- `PlayerSpread::flipped_cards`: number of present face-up cards. -/
def PlayerSpread.flippedCards (sp : PlayerSpread) : Nat :=
  sp.remainList.countP (fun c => c.flipped)

/-- `PlayerSpread::is_all_flipped`: every present card is face-up. -/
def PlayerSpread.isAllFlipped (sp : PlayerSpread) : Bool :=
  sp.remainList.all (fun c => c.flipped)

/-- `PlayerSpread::score`: sum of the values of present face-up cards. -/
def PlayerSpread.score (sp : PlayerSpread) : Int :=
  ((sp.remainList.filter (fun c => c.flipped)).map (fun c => c.value)).sum

/-- `PlayerSpread::remove_column_if_matches` (src/card.rs): when all three cells
of the column are present, face-up and equal, clear the column.  The source
returns `Result` but never constructs an error; its only failure is an `unwrap`
panic when `values` is empty (column out of bounds), which its callers rule out
by having just acted at that column, so the model returns the spread unchanged
there. -/
def PlayerSpread.removeColumnIfMatches (sp : PlayerSpread) (column : Nat) : PlayerSpread :=
  let values := sp.grid.filterMap (fun rw => rw.get? column)
  if values.any (fun c => c.isNone) then sp
  else if values.any (fun c => !(c.getD (Card.new 0)).flipped) then sp
  else
    match values with
    | [] => sp
    | v0 :: _ =>
      let first := v0.getD (Card.new 0)
      if values.all (fun c => decide (c.getD (Card.new 0) = first)) then
        ⟨sp.grid.map (fun rw => rw.set column none)⟩
      else sp

/-- `PlayerActionError` (src/player.rs). -/
inductive PlayerActionError where
  | AlreadyHoldingCard (c : Card)
  deriving DecidableEq, Repr

/-- `Player` (src/player.rs): identity, the optionally held card, the spread. -/
structure Player where
  id : String
  holding : Option Card
  spread : PlayerSpread
  deriving DecidableEq, Repr

/-- `Player::new`: empty hand, fresh spread. -/
def Player.new (id : String) : Player := ⟨id, none, PlayerSpread.new⟩

/-- `Player::hold`: flips the incoming card face-up and stores it; fails when a
card is already held. -/
def Player.hold (p : Player) (card : Card) : Except PlayerActionError Player :=
  match p.holding with
  | some c => .error (.AlreadyHoldingCard c)
  | none => .ok { p with holding := some card.flip }

/-- `StartAction` (src/player.rs). -/
inductive StartAction where
  | DrawFromDeck
  | TakeFromDiscardPile
  deriving DecidableEq, Repr

/-- `EndAction` (src/player.rs). -/
inductive EndAction where
  | Swap (row column : Nat)
  | Flip (row column : Nat)
  deriving DecidableEq, Repr

/-- `GameState` (src/game.rs). -/
inductive GameState where
  | WaitingForPlayers
  | Startup
  | DetermineFirstPlayer
  | Active
  | LastRound
  | Ended
  deriving DecidableEq, Repr

/-- `GameStartupError` (src/game.rs). -/
inductive GameStartupError where
  | GameAlreadyStarted
  | PlayersListLocked
  | NotEnoughPlayers
  | PlayerSpreadError (e : SpreadActionError)
  | DeckEmpty
  deriving DecidableEq, Repr

/-- `PlayerTurnError` (src/game.rs). -/
inductive PlayerTurnError where
  | PlayerDoesntExist
  | NotDeterminingFirstPlayer
  | TooManyCardsFlipped
  | GameNotStarted
  | TurnAlreadyStarted
  | TurnNotStarted
  | NotYourTurn
  | PlayerActionError (e : PlayerActionError)
  | PlayerSpreadError (e : SpreadActionError)
  | DeckEmpty
  | DiscardPileEmpty
  deriving DecidableEq, Repr

/-- `GameContext` (src/game.rs).  `deck` and `discard_pile` are the wrapped
`Vec<Card>` of `Deck` and `DiscardPile` (push and pop at the end). -/
structure GameContext where
  players : List Player
  current_player_idx : Option Nat
  deck : List Card
  discard_pile : List Card
  round : Nat
  finisher_idx : Option Nat
  winner_idx : Option Nat
  deriving DecidableEq, Repr

/-- `StratoGame` (src/game.rs).  The optional subscriber only forwards
notifications to a callback and holds no game data, so it is not modelled. -/
structure StratoGame where
  state : GameState
  context : GameContext
  deriving DecidableEq, Repr

/-- `StratoGame::new` with the derived `GameContext::default`: no players, no
current player, the full 150-card deck, empty discard pile, round 0. -/
def StratoGame.new : StratoGame :=
  ⟨.WaitingForPlayers, ⟨[], none, deckDefault, [], 0, none, none⟩⟩

/-- `GameEvent` (src/game.rs): the one event `StratoGame::send` handles. -/
inductive GameEvent where
  | AddPlayer (id : String)
  deriving DecidableEq, Repr

/-- `StratoGame::send` with `AddPlayerAction::execute` inlined: while
`WaitingForPlayers` the action yields a context change appending
`Player::new(id)`; in every other state the match falls through to
`(None, None)` and the event is dropped with no observable effect. -/
def StratoGame.send (g : StratoGame) (event : GameEvent) : StratoGame :=
  match event with
  | .AddPlayer id =>
    if g.state = GameState.WaitingForPlayers then
      { g with context := { g.context with players := g.context.players ++ [Player.new id] } }
    else g

/-- `GameOptions` (src/game.rs). -/
structure GameOptions where
  first_player_idx : Option Nat
  deriving DecidableEq, Repr

/-- Body of `StratoGame::deal_cards_to_players` for a single player: the
row-major `for row in 0..3 { for column in 0..4 }` deal into the spread,
threading the deck and stopping at the first error (the deck draw is already
consumed when `place_at` fails, as in the source). -/
def dealFold : List (Nat × Nat) → PlayerSpread → List Card →
    Option GameStartupError × PlayerSpread × List Card
  | [], sp, d => (none, sp, d)
  | (row, column) :: rest, sp, d =>
    match vecPop d with
    | none => (some .DeckEmpty, sp, d)
    | some (card, d1) =>
      match sp.place_at card row column with
      | .error e => (some (.PlayerSpreadError e), sp, d1)
      | .ok sp1 => dealFold rest sp1 d1

/-- Row-major positions of the 3 by 4 deal loop. -/
def dealPositions : List (Nat × Nat) :=
  (List.range 3).flatMap fun row => (List.range 4).map fun column => (row, column)

/-- Per-player iteration of `deal_cards_to_players`: players already dealt keep
their new spreads when a later player fails (the partial mutation of the
source's `iter_mut` loop). -/
def dealAll : List Player → List Card → Option GameStartupError × List Player × List Card
  | [], d => (none, [], d)
  | p :: rest, d =>
    match dealFold dealPositions p.spread d with
    | (some e, sp1, d1) => (some e, { p with spread := sp1 } :: rest, d1)
    | (none, sp1, d1) =>
      match dealAll rest d1 with
      | (err, rest1, d2) => (err, { p with spread := sp1 } :: rest1, d2)

/-- `StratoGame::deal_cards_to_players`: deals only when the state is `Startup`. -/
def deal_cards_to_players (state : GameState) (players : List Player) (deck : List Card) :
    Option GameStartupError × List Player × List Card :=
  if state = GameState.Startup then dealAll players deck else (none, players, deck)

/-- Iterator `max_by_key` over keys produced by `f`: when several elements have
an equally maximal key, Rust returns the LAST such element, matching the
fold that replaces the accumulator whenever the new key is not smaller. -/
def maxByKey (f : α → Int) (l : List α) : Option α :=
  l.foldl (fun acc x =>
    match acc with
    | none => some x
    | some y => if f y ≤ f x then some x else some y) none

/-- Modelled from the spec: `PlayerSpread::flip_all` is called by
`StratoGame::handle_end` but is not among the provided sources; per the spec
the end-game computation flips every remaining face-down card of a spread. -/
def PlayerSpread.flipAll (sp : PlayerSpread) : PlayerSpread :=
  ⟨sp.grid.map (fun rw => rw.map (fun cell => cell.map Card.flip))⟩

/-- `StratoGame::handle_end` (src/game.rs): only acts in `Ended`; flips every
spread fully, then records the index produced by `max_by_key` on the spread
scores as `winner_idx`.  The source `unwrap`s the maximum, panicking on an
empty players list; games that reach `Ended` have players, and the model keeps
the flipped players and leaves `winner_idx` unset in that unreachable case. -/
def handle_end (g : StratoGame) : StratoGame :=
  if g.state ≠ GameState.Ended then g
  else
    let players1 := g.context.players.map fun p => { p with spread := p.spread.flipAll }
    match maxByKey (fun pr : Nat × Player => pr.2.spread.score) players1.enum with
    | none => { g with context := { g.context with players := players1 } }
    | some pr =>
      { g with context := { g.context with players := players1, winner_idx := some pr.1 } }

/-- `StratoGame::handle_start` (src/game.rs).  The outer `Option` is `none`
exactly when the source panics (shuffle of a too-small deck, or the `unwrap`
on drawing the top card of an empty deck).  All mutations performed before a
failing step are kept, as in the source. -/
def handle_start (g : StratoGame) (options : GameOptions) (r : Rand) :
    Option (Option GameStartupError × StratoGame) :=
  if g.state = GameState.Active then some (some .GameAlreadyStarted, g)
  else if g.context.players.length < 2 then some (some .NotEnoughPlayers, g)
  else if g.state = GameState.WaitingForPlayers then
    match shuffle g.context.deck r with
    | none => none
    | some deck1 =>
      match vecPop deck1 with
      | none => none
      | some (top, deck2) =>
        let discard1 := g.context.discard_pile ++ [top]
        match deal_cards_to_players GameState.Startup g.context.players deck2 with
        | (some e, players1, deck3) =>
          some (some e, ⟨GameState.Startup,
            { g.context with players := players1, deck := deck3, discard_pile := discard1 }⟩)
        | (none, players1, deck3) =>
          let ctx1 := { g.context with
            players := players1
            deck := deck3
            discard_pile := discard1 }
          match options.first_player_idx with
          | some idx =>
            some (none, ⟨GameState.Active, { ctx1 with current_player_idx := some idx }⟩)
          | none => some (none, ⟨GameState.DetermineFirstPlayer, ctx1⟩)
  else some (none, g)

/-- `StratoGame::start`. -/
def start (g : StratoGame) (r : Rand) : Option (Option GameStartupError × StratoGame) :=
  handle_start g ⟨none⟩ r

/-- `StratoGame::start_with_options`. -/
def start_with_options (g : StratoGame) (options : GameOptions) (r : Rand) :
    Option (Option GameStartupError × StratoGame) :=
  handle_start g options r

/-- `StratoGame::check_if_first_player_determined` (src/game.rs): once every
player has exactly two face-up cards, the index from `max_by_key` on the
two-card scores.  The source `unwrap`s the maximum, which panics only for an
empty players list (where `all` is vacuously true); callers always have
players, and the model returns `none` there. -/
def check_if_first_player_determined (ctx : GameContext) : Option Nat :=
  if ctx.players.all (fun p => p.spread.flippedCards == 2) then
    (maxByKey (fun pr : Nat × Player => pr.2.spread.score) ctx.players.enum).map Prod.fst
  else none

/-- `StratoGame::check_if_player_turn`: when a current player is set, acting
under a different index is `NotYourTurn`; with no current player anyone passes. -/
def check_if_player_turn (ctx : GameContext) (player_idx : Nat) : Option PlayerTurnError :=
  match ctx.current_player_idx with
  | some current => if player_idx ≠ current then some .NotYourTurn else none
  | none => none

/-- `StratoGame::player_flip_to_determine_who_is_first` (src/game.rs). -/
def player_flip_to_determine_who_is_first (g : StratoGame) (player_id : String)
    (row column : Nat) : Option PlayerTurnError × StratoGame :=
  if g.state ≠ GameState.DetermineFirstPlayer then (some .NotDeterminingFirstPlayer, g)
  else
    match g.context.players.findIdx? (fun p => p.id = player_id) with
    | none => (some .PlayerDoesntExist, g)
    | some idx =>
      match g.context.players.get? idx with
      | none => (some .PlayerDoesntExist, g)
      | some player =>
        if 2 ≤ player.spread.flippedCards then (some .TooManyCardsFlipped, g)
        else
          match player.spread.flip_at row column with
          | .error e => (some (.PlayerSpreadError e), g)
          | .ok spread1 =>
            let ctx1 := { g.context with
              players := g.context.players.set idx { player with spread := spread1 } }
            match check_if_first_player_determined ctx1 with
            | some first =>
              (none, ⟨GameState.Active, { ctx1 with current_player_idx := some first }⟩)
            | none => (none, { g with context := ctx1 })

/-- `StratoGame::start_player_turn` (src/game.rs).  The second `get?` match is
unreachable because `findIdx?` returns an in-bounds index (the source indexes
the `Vec` directly).  When a draw succeeded but `hold` fails, the card has
already left the deck or pile, as in the source. -/
def start_player_turn (g : StratoGame) (player_id : String) (action : StartAction) :
    Option PlayerTurnError × StratoGame :=
  if g.state ≠ GameState.Active then (some .GameNotStarted, g)
  else
    match g.context.players.findIdx? (fun p => p.id = player_id) with
    | none => (some .PlayerDoesntExist, g)
    | some player_idx =>
      match check_if_player_turn g.context player_idx with
      | some e => (some e, g)
      | none =>
        match g.context.players.get? player_idx with
        | none => (some .PlayerDoesntExist, g)
        | some player =>
          if player.holding.isSome then (some .TurnAlreadyStarted, g)
          else
            match action with
            | .DrawFromDeck =>
              match vecPop g.context.deck with
              | none => (some .DeckEmpty, g)
              | some (card, deck1) =>
                match player.hold card with
                | .error e =>
                  (some (.PlayerActionError e),
                    { g with context := { g.context with deck := deck1 } })
                | .ok player1 =>
                  (none, { g with context := { g.context with
                    deck := deck1
                    players := g.context.players.set player_idx player1 } })
            | .TakeFromDiscardPile =>
              match vecPop g.context.discard_pile with
              | none => (some .DiscardPileEmpty, g)
              | some (card, discard1) =>
                match player.hold card with
                | .error e =>
                  (some (.PlayerActionError e),
                    { g with context := { g.context with discard_pile := discard1 } })
                | .ok player1 =>
                  (none, { g with context := { g.context with
                    discard_pile := discard1
                    players := g.context.players.set player_idx player1 } })

/-- Free function `last_player_idx` (src/game.rs): the player immediately
preceding the finisher in turn order, wrapping. -/
def last_player_idx (players_count finisher_idx : Nat) : Nat :=
  if finisher_idx = 0 then players_count - 1 else finisher_idx - 1

/-- `StratoGame::advance_round`. -/
def advance_round (ctx : GameContext) : GameContext :=
  { ctx with round := ctx.round + 1 }

/-- `StratoGame::advance_player_turn`: steps `current_player_idx` modulo the
player count (the source `%` panics on zero players; every caller has found a
player in the list, so the count is positive there). -/
def advance_player_turn (ctx : GameContext) : GameContext :=
  match ctx.current_player_idx with
  | some current =>
    { ctx with current_player_idx := some ((current + 1) % ctx.players.length) }
  | none => ctx

/-- Tail of `StratoGame::end_player_turn` after the end action succeeded
(source lines 311-333): the `LastRound` block (dead code, since `state` here
is the entry state, already required to be `Active`), the finisher detection,
the round-advance check and the turn advance.  `state` is `self.state` as it
stands at line 311. -/
def end_turn_tail (state : GameState) (player_idx players_count : Nat)
    (player3 : Player) (ctx1 : GameContext) : Option PlayerTurnError × StratoGame :=
  let afterCheck :=
    let stCtx :=
      if state = GameState.Active ∧ player3.spread.isAllFlipped then
        (GameState.LastRound, { ctx1 with finisher_idx := some player_idx })
      else (state, ctx1)
    let ctx2 :=
      if player_idx = stCtx.2.players.length then advance_round stCtx.2
      else stCtx.2
    ((none : Option PlayerTurnError),
      (⟨stCtx.1, advance_player_turn ctx2⟩ : StratoGame))
  if state = GameState.LastRound then
    match ctx1.finisher_idx with
    | some fin =>
      if player_idx = last_player_idx players_count fin then
        (none, handle_end ⟨GameState.Ended, ctx1⟩)
      else afterCheck
    | none => afterCheck
  else afterCheck

/-- `StratoGame::end_player_turn` (src/game.rs).  Mirrors the source statement
by statement; note that `release()` empties the hand BEFORE the end action is
validated, so a spread error afterwards leaves the hand already emptied, and
that the `LastRound` block is checked against a state that was required to be
`Active` on entry. -/
def end_player_turn (g : StratoGame) (player_id : String) (action : EndAction) :
    Option PlayerTurnError × StratoGame :=
  if g.state ≠ GameState.Active then (some .GameNotStarted, g)
  else
    match g.context.players.findIdx? (fun p => p.id = player_id) with
    | none => (some .PlayerDoesntExist, g)
    | some player_idx =>
      match check_if_player_turn g.context player_idx with
      | some e => (some e, g)
      | none =>
        let players_count := g.context.players.length
        match g.context.players.get? player_idx with
        | none => (some .PlayerDoesntExist, g)
        | some player =>
          match player.holding with
          | none => (some .TurnNotStarted, g)
          | some card_from_hand =>
            -- `player.release()`: the hand is emptied here, before the action.
            let player1 : Player := { player with holding := none }
            let withPlayer := fun (p : Player) =>
              { g with context := { g.context with
                  players := g.context.players.set player_idx p } }
            match
              (match action with
               | .Swap row column =>
                 match player1.spread.take_from row column with
                 | .error e => .error (e, player1, g.context.discard_pile)
                 | .ok (selected, spread1) =>
                   match spread1.place_at card_from_hand row column with
                   | .error e => .error (e, { player1 with spread := spread1 },
                       g.context.discard_pile)
                   | .ok spread2 => .ok ({ player1 with spread := spread2 },
                       g.context.discard_pile ++ [selected], column)
               | .Flip row column =>
                 match player1.spread.flip_at row column with
                 | .error e => .error (e, player1, g.context.discard_pile)
                 | .ok spread1 => .ok ({ player1 with spread := spread1 },
                     g.context.discard_pile ++ [card_from_hand], column) :
              Except (SpreadActionError × Player × List Card)
                (Player × List Card × Nat)) with
            | .error (e, player2, discard1) =>
              (some (.PlayerSpreadError e),
                { (withPlayer player2) with context := { (withPlayer player2).context with
                    discard_pile := discard1 } })
            | .ok (player2, discard1, column) =>
              let player3 := { player2 with
                spread := player2.spread.removeColumnIfMatches column }
              let ctx1 := { g.context with
                players := g.context.players.set player_idx player3,
                discard_pile := discard1 }
              end_turn_tail g.state player_idx players_count player3 ctx1

/-- A constant random stream, used to instantiate theorems at concrete runs. -/
def r0 : Rand := ⟨fun _ => 0, 0⟩

lemma vecPop_nil : vecPop ([] : List α) = none := rfl

lemma vecPop_some_of_ne_nil {l : List α} (h : l ≠ []) :
    ∃ x l', vecPop l = some (x, l') := by
  match l with
  | [] => exact absurd rfl h
  | [x] => exact ⟨x, [], rfl⟩
  | x :: y :: rest =>
    obtain ⟨z, l', hz⟩ := vecPop_some_of_ne_nil (l := y :: rest) (by simp)
    exact ⟨z, x :: l', by simp [vecPop, hz]⟩

lemma vecPop_multiset : ∀ {l : List α} {x : α} {l' : List α},
    vecPop l = some (x, l') → (l : Multiset α) = x ::ₘ (l' : Multiset α) := by
  intro l
  induction l with
  | nil => intro x l' h; simp [vecPop] at h
  | cons a t ih =>
    intro x l' h
    match t with
    | [] =>
      simp only [vecPop, Option.some.injEq, Prod.mk.injEq] at h
      obtain ⟨rfl, rfl⟩ := h
      rfl
    | b :: rest =>
      simp only [vecPop] at h
      cases hz : vecPop (b :: rest) with
      | none => rw [hz] at h; exact absurd h (by simp)
      | some p =>
        obtain ⟨z, m⟩ := p
        rw [hz] at h
        simp only [Option.some.injEq, Prod.mk.injEq] at h
        obtain ⟨rfl, rfl⟩ := h
        have hrec := ih hz
        rw [← Multiset.cons_coe, hrec, ← Multiset.cons_coe]
        exact Multiset.cons_swap a z ↑m

lemma vecPop_length {l l' : List α} {x : α} (h : vecPop l = some (x, l')) :
    l.length = l'.length + 1 := by
  have := congrArg Multiset.card (vecPop_multiset h)
  simpa [Multiset.coe_card] using this

lemma vecPop_mem {l l' : List α} {x : α} (h : vecPop l = some (x, l')) : x ∈ l := by
  rw [← Multiset.mem_coe, vecPop_multiset h]
  exact Multiset.mem_cons_self x _

lemma vecPop_subset {l l' : List α} {x : α} (h : vecPop l = some (x, l')) :
    ∀ a ∈ l', a ∈ l := by
  intro a ha
  rw [← Multiset.mem_coe, vecPop_multiset h]
  exact Multiset.mem_cons_of_mem (Multiset.mem_coe.mpr ha)

lemma set_cons_multiset : ∀ (l : List α) (i : Nat) (a b : α), l.get? i = some a →
    a ::ₘ (↑(l.set i b) : Multiset α) = b ::ₘ (↑l : Multiset α) := by
  intro l
  induction l with
  | nil => intro i a b h; simp at h
  | cons x t ih =>
    intro i a b h
    cases i with
    | zero =>
      have hxa : x = a := by simpa [List.get?] using h
      subst hxa
      show x ::ₘ (↑(b :: t) : Multiset α) = b ::ₘ ↑(x :: t)
      rw [← Multiset.cons_coe, ← Multiset.cons_coe]
      exact Multiset.cons_swap x b ↑t
    | succ i =>
      simp only [List.get?] at h
      simp only [List.set]
      calc a ::ₘ (↑(x :: t.set i b) : Multiset α) = a ::ₘ x ::ₘ ↑(t.set i b) := by
            simp [Multiset.cons_coe]
        _ = x ::ₘ a ::ₘ ↑(t.set i b) := Multiset.cons_swap a x _
        _ = x ::ₘ b ::ₘ ↑t := by rw [ih i a b h]
        _ = b ::ₘ x ::ₘ ↑t := Multiset.cons_swap x b _
        _ = b ::ₘ ↑(x :: t) := by simp [Multiset.cons_coe]

lemma listSwap_multiset (l : List α) (i j : Nat) :
    (↑(listSwap l i j) : Multiset α) = ↑l := by
  unfold listSwap
  cases hi : l.get? i with
  | none => rfl
  | some a =>
    cases hj : l.get? j with
    | none => rfl
    | some b =>
      have hjb : (l.set i b).get? j = some b := by
        by_cases hij : i = j
        · subst hij
          rw [hi] at hj
          obtain rfl : a = b := by simpa using hj
          obtain ⟨hlt, _⟩ := List.get?_eq_some.mp hi
          exact List.get?_set_eq_of_lt _ hlt
        · rw [List.get?_set_ne _ _ hij]; exact hj
      have e1 : a ::ₘ (↑(l.set i b) : Multiset α) = b ::ₘ ↑l :=
        set_cons_multiset l i a b hi
      have e2 : b ::ₘ (↑((l.set i b).set j a) : Multiset α) = a ::ₘ ↑(l.set i b) :=
        set_cons_multiset (l.set i b) j b a hjb
      have := e2.trans e1
      exact (Multiset.cons_inj_right b).mp this

lemma moveN_multiset : ∀ (k : Nat) (hand sh : List Card),
    (↑(moveN k hand sh).1 + ↑(moveN k hand sh).2 : Multiset Card) = ↑hand + ↑sh := by
  intro k
  induction k with
  | zero => intro hand sh; simp [moveN]
  | succ k ih =>
    intro hand sh
    cases h : vecPop hand with
    | none => simp [moveN, h]
    | some p =>
      obtain ⟨c, hand'⟩ := p
      simp only [moveN, h]
      rw [ih hand' (sh ++ [c]), vecPop_multiset h]
      rw [← Multiset.coe_add, Multiset.coe_singleton, ← Multiset.singleton_add]
      abel

lemma moveN_fst_length_le : ∀ (k : Nat) (hand sh : List Card),
    (moveN k hand sh).1.length ≤ hand.length := by
  intro k
  induction k with
  | zero => intro hand sh; simp [moveN]
  | succ k ih =>
    intro hand sh
    cases h : vecPop hand with
    | none => simp [moveN, h]
    | some p =>
      obtain ⟨c, hand'⟩ := p
      simp only [moveN, h]
      have := ih hand' (sh ++ [c])
      have hlen := vecPop_length h
      omega

lemma moveN_fst_length_lt (k : Nat) (hand sh : List Card) (hk : k ≠ 0) (hne : hand ≠ []) :
    (moveN k hand sh).1.length < hand.length := by
  cases k with
  | zero => exact absurd rfl hk
  | succ k =>
    obtain ⟨x, l', hx⟩ := vecPop_some_of_ne_nil hne
    simp only [moveN, hx]
    have := moveN_fst_length_le k l' (sh ++ [x])
    have hlen := vecPop_length hx
    omega

lemma genRange_eq_some {lo hi : Nat} (r : Rand) (h : lo < hi) :
    genRange lo hi r = some (lo + r.next % (hi - lo), r.adv) := by
  simp [genRange, h]

lemma zipLoop_multiset : ∀ (fuel : Nat) (left right sh : List Card) (r : Rand)
    (out : List Card) (r' : Rand), zipLoop fuel left right sh r = some (out, r') →
    (↑out : Multiset Card) = ↑sh + ↑left + ↑right := by
  intro fuel
  induction fuel with
  | zero => intro left right sh r out r' h; simp [zipLoop] at h
  | succ fuel ih =>
    intro left right sh r out r' h
    by_cases hb : left = [] ∧ right = []
    · obtain ⟨rfl, rfl⟩ := hb
      simp only [zipLoop, if_pos (And.intro rfl rfl), Option.some.injEq,
        Prod.mk.injEq] at h
      obtain ⟨rfl, rfl⟩ := h
      simp
    · rw [zipLoop, if_neg hb, genRange_eq_some r (by omega)] at h
      simp only at h
      rw [genRange_eq_some r.adv (by omega)] at h
      simp only at h
      have e1 := moveN_multiset (1 + r.next % (4 - 1)) left sh
      set m1 := moveN (1 + r.next % (4 - 1)) left sh with hm1
      have e2 := moveN_multiset (1 + r.adv.next % (4 - 1)) right m1.2
      set m2 := moveN (1 + r.adv.next % (4 - 1)) right m1.2 with hm2
      have hrec := ih m1.1 m2.1 m2.2 r.adv.adv out r' h
      rw [hrec]
      have key : (↑m2.2 + ↑m1.1 + ↑m2.1 : Multiset Card) + ↑m1.2 =
          (↑sh + ↑left + ↑right) + ↑m1.2 := by
        calc (↑m2.2 + ↑m1.1 + ↑m2.1 : Multiset Card) + ↑m1.2
            = (↑m1.1 + ↑m1.2) + (↑m2.1 + ↑m2.2) := by abel
          _ = (↑left + ↑sh) + (↑right + ↑m1.2) := by rw [e1, e2]
          _ = (↑sh + ↑left + ↑right) + ↑m1.2 := by abel
      exact add_right_cancel key

lemma zipLoop_some : ∀ (fuel : Nat) (left right sh : List Card) (r : Rand),
    left.length + right.length < fuel →
    ∃ out r', zipLoop fuel left right sh r = some (out, r') := by
  intro fuel
  induction fuel with
  | zero => intro left right sh r h; omega
  | succ fuel ih =>
    intro left right sh r h
    by_cases hb : left = [] ∧ right = []
    · exact ⟨sh, r, by rw [zipLoop, if_pos hb]⟩
    · rw [zipLoop, if_neg hb, genRange_eq_some r (by omega)]
      simp only
      rw [genRange_eq_some r.adv (by omega)]
      simp only
      set m1 := moveN (1 + r.next % (4 - 1)) left sh with hm1
      set m2 := moveN (1 + r.adv.next % (4 - 1)) right m1.2 with hm2
      apply ih
      have h1le : m1.1.length ≤ left.length := moveN_fst_length_le _ _ _
      have h2le : m2.1.length ≤ right.length := moveN_fst_length_le _ _ _
      rcases Classical.em (left = []) with hl | hl
      · have hr : right ≠ [] := fun hr => hb ⟨hl, hr⟩
        have h2lt : m2.1.length < right.length :=
          moveN_fst_length_lt _ _ _ (by omega) hr
        omega
      · have h1lt : m1.1.length < left.length :=
          moveN_fst_length_lt _ _ _ (by omega) hl
        omega

lemma shuffleRounds_multiset : ∀ (times : Nat) (hand : List Card) (middle maxVar : Nat)
    (r : Rand) (out : List Card) (r' : Rand),
    shuffleRounds times hand middle maxVar r = some (out, r') →
    (↑out : Multiset Card) = ↑hand := by
  intro times
  induction times with
  | zero =>
    intro hand middle maxVar r out r' h
    simp only [shuffleRounds, Option.some.injEq, Prod.mk.injEq] at h
    obtain ⟨rfl, rfl⟩ := h
    rfl
  | succ times ih =>
    intro hand middle maxVar r out r' h
    rw [shuffleRounds] at h
    cases hg : genRange 0 maxVar r with
    | none => rw [hg] at h; exact absurd h (by simp)
    | some p =>
      obtain ⟨variance, r1⟩ := p
      rw [hg] at h
      simp only at h
      cases hz : zipLoop (((hand.take (if (genBool r1).1 then middle + variance
          else if variance ≤ middle then middle - variance else middle)).length +
          (hand.drop (if (genBool r1).1 then middle + variance
          else if variance ≤ middle then middle - variance else middle)).length) + 1)
          (hand.take (if (genBool r1).1 then middle + variance
          else if variance ≤ middle then middle - variance else middle))
          (hand.drop (if (genBool r1).1 then middle + variance
          else if variance ≤ middle then middle - variance else middle)) [] (genBool r1).2 with
      | none => rw [hz] at h; exact absurd h (by simp)
      | some q =>
        obtain ⟨sh, r3⟩ := q
        rw [hz] at h
        have hsh := zipLoop_multiset _ _ _ _ _ _ _ hz
        have hout := ih sh middle maxVar r3 out r' h
        rw [hout, hsh]
        rw [show ((↑([] : List Card) : Multiset Card) = 0) from rfl, zero_add,
          Multiset.coe_add]
        congr 1
        exact List.take_append_drop _ hand

lemma shuffleRounds_some : ∀ (times : Nat) (hand : List Card) (middle maxVar : Nat)
    (r : Rand), 0 < maxVar →
    ∃ out r', shuffleRounds times hand middle maxVar r = some (out, r') := by
  intro times
  induction times with
  | zero => intro hand middle maxVar r _; exact ⟨hand, r, rfl⟩
  | succ times ih =>
    intro hand middle maxVar r hpos
    rw [shuffleRounds, genRange_eq_some r hpos]
    simp only
    set guess := if (genBool r.adv).1 then middle + (0 + r.next % (maxVar - 0))
      else if 0 + r.next % (maxVar - 0) ≤ middle then middle - (0 + r.next % (maxVar - 0))
      else middle with hguess
    obtain ⟨sh, r3, hz⟩ := zipLoop_some
      ((hand.take guess).length + (hand.drop guess).length + 1)
      (hand.take guess) (hand.drop guess) [] (genBool r.adv).2 (by omega)
    rw [hz]
    exact ih sh middle maxVar r3 hpos

lemma swapsLoop_multiset : ∀ (k : Nat) (hand : List Card) (size : Nat) (r : Rand)
    (out : List Card), swapsLoop k hand size r = some out →
    (↑out : Multiset Card) = ↑hand := by
  intro k
  induction k with
  | zero =>
    intro hand size r out h
    simp only [swapsLoop, Option.some.injEq] at h
    rw [← h]
  | succ k ih =>
    intro hand size r out h
    rw [swapsLoop] at h
    cases h1 : genRange 0 size r with
    | none => rw [h1] at h; exact absurd h (by simp)
    | some p =>
      obtain ⟨first, r1⟩ := p
      rw [h1] at h
      simp only at h
      cases h2 : genRange 0 size r1 with
      | none => rw [h2] at h; exact absurd h (by simp)
      | some q =>
        obtain ⟨second, r2⟩ := q
        rw [h2] at h
        simp only at h
        have := ih (listSwap hand first second) size r2 out h
        rw [this, listSwap_multiset]

lemma swapsLoop_some : ∀ (k : Nat) (hand : List Card) (size : Nat) (r : Rand),
    0 < size → ∃ out, swapsLoop k hand size r = some out := by
  intro k
  induction k with
  | zero => intro hand size r _; exact ⟨hand, rfl⟩
  | succ k ih =>
    intro hand size r hpos
    rw [swapsLoop, genRange_eq_some r hpos]
    simp only
    rw [genRange_eq_some r.adv hpos]
    simp only
    exact ih _ size r.adv.adv hpos

lemma shuffle_multiset {deck : List Card} {r : Rand} {out : List Card}
    (h : shuffle deck r = some out) : (↑out : Multiset Card) = ↑deck := by
  rw [shuffle, genRange_eq_some r (by omega)] at h
  simp only at h
  cases hs : shuffleRounds (4 + r.next % 4) deck (deck.length / 2) (deck.length / 10)
      r.adv with
  | none => rw [hs] at h; exact absurd h (by simp)
  | some p =>
    obtain ⟨hand, r2⟩ := p
    rw [hs] at h
    simp only at h
    rw [genRange_eq_some r2 (by omega)] at h
    simp only at h
    have h1 := shuffleRounds_multiset _ _ _ _ _ _ _ hs
    have h2 := swapsLoop_multiset _ _ _ _ _ h
    rw [h2, h1]

lemma shuffle_length {deck : List Card} {r : Rand} {out : List Card}
    (h : shuffle deck r = some out) : out.length = deck.length := by
  have := congrArg Multiset.card (shuffle_multiset h)
  simpa [Multiset.coe_card] using this

lemma shuffle_mem {deck : List Card} {r : Rand} {out : List Card}
    (h : shuffle deck r = some out) : ∀ x ∈ out, x ∈ deck := by
  intro x hx
  rw [← Multiset.mem_coe, ← shuffle_multiset h]
  exact Multiset.mem_coe.mpr hx

lemma shuffle_some {deck : List Card} (r : Rand) (h : 10 ≤ deck.length) :
    ∃ out, shuffle deck r = some out := by
  rw [shuffle, genRange_eq_some r (by omega)]
  simp only
  obtain ⟨hand, r2, hs⟩ := shuffleRounds_some (4 + r.next % 4) deck
    (deck.length / 2) (deck.length / 10) r.adv (by omega)
  rw [hs]
  simp only
  rw [genRange_eq_some r2 (by omega)]
  simp only
  exact swapsLoop_some _ hand deck.length r2.adv (by omega)

lemma shuffleRounds_none_of_maxVar_zero (times : Nat) (hand : List Card) (middle : Nat)
    (r : Rand) (h : times ≠ 0) : shuffleRounds times hand middle 0 r = none := by
  cases times with
  | zero => exact absurd rfl h
  | succ t =>
    rw [shuffleRounds]
    simp [genRange]

/-- C8: for every deck and every sequence of random choices, a completed
`shuffle()` run preserves the deck: the resulting deck holds the identical
multiset of cards as before the shuffle and has the same size. -/
theorem shuffle_preserves_multiset (deck : List Card) (r : Rand) (out : List Card)
    (h : shuffle deck r = some out) :
    (↑out : Multiset Card) = ↑deck ∧ out.length = deck.length :=
  ⟨shuffle_multiset h, shuffle_length h⟩

/-- A ten-card deck of distinct values, the smallest size the shuffle accepts. -/
def deckTen : List Card := (List.range 10).map fun n => Card.new n

/-- The run of `shuffle` on `deckTen` under the constant-zero random stream. -/
def deckTenShuffled : List Card := ([8, 6, 4, 2, 0, 9, 7, 5, 3, 1] : List Int).map Card.new

/-- Witness for C8: a concrete completed shuffle run satisfying the hypothesis. -/
theorem shuffle_preserves_multiset_witness :
    (↑deckTenShuffled : Multiset Card) = ↑deckTen ∧
      deckTenShuffled.length = deckTen.length :=
  shuffle_preserves_multiset deckTen r0 deckTenShuffled (by decide)

/-- A five-card deck, below the ten-card threshold of the variance computation. -/
def deckFive : List Card := (List.range 5).map fun n => Card.new n

/-- C7 is refuted by the code: shuffling a deck of fewer than 10 cards panics.
With five cards, `max_variance_from_middle = 5 / 10 = 0`, and on the first
riffle pass `gen_range(0..0)` samples from an empty range, which panics in
Rust for every random stream (`none` in the model); the claim asserts the
shuffle completes without panicking. -/
theorem shuffle_five_card_deck_panics : ∀ r : Rand, shuffle deckFive r = none := by
  intro r
  rw [shuffle, genRange_eq_some r (by omega)]
  simp only
  rw [show deckFive.length / 10 = 0 from by decide]
  rw [shuffleRounds_none_of_maxVar_zero _ _ _ _ (by omega)]

/-- Reference recursion for the tie-break analysis: the index and value of the
LAST maximal element of a list of integers (ties keep the later index). -/
def lastMax : List Int → Option (Nat × Int)
  | [] => none
  | x :: xs =>
    match lastMax xs with
    | none => some (0, x)
    | some (k, m) => if m < x then some (0, x) else some (k + 1, m)

lemma maxByKey_cons_cons (g : β → Int) (a b : β) (t : List β) :
    maxByKey g (a :: b :: t) = maxByKey g ((if g a ≤ g b then b else a) :: t) := by
  simp only [maxByKey, List.foldl_cons]
  congr 1
  split_ifs <;> rfl

lemma maxByKey_cons_enumFrom (f : α → Int) : ∀ (xs : List α) (n k : Nat) (p : α),
    (maxByKey (fun pr : Nat × α => f pr.2) ((k, p) :: List.enumFrom n xs)).map
      (fun q => (q.1, f q.2)) =
    some (match lastMax (xs.map f) with
          | none => (k, f p)
          | some jm => if f p ≤ jm.2 then (n + jm.1, jm.2) else (k, f p)) := by
  intro xs
  induction xs with
  | nil =>
    intro n k p
    simp [maxByKey, lastMax]
  | cons y ys ih =>
    intro n k p
    rw [List.enumFrom_cons, maxByKey_cons_cons]
    by_cases hpy : f p ≤ f y
    · rw [if_pos hpy]
      rw [ih (n + 1) n y]
      congr 1
      cases hys : lastMax (ys.map f) with
      | none =>
        simp only [List.map_cons, lastMax, hys]
        rw [if_pos hpy]
        simp
      | some jm =>
        obtain ⟨j, m⟩ := jm
        simp only [List.map_cons, lastMax, hys]
        by_cases hmy : m < f y
        · rw [if_pos hmy]
          simp only [if_neg (by omega : ¬ f y ≤ m), if_pos hpy]
          simp
        · rw [if_neg hmy]
          simp only [if_pos (by omega : f y ≤ m), if_pos (by omega : f p ≤ m)]
          simp only [Option.some.injEq, Prod.mk.injEq]
          exact ⟨by omega, trivial⟩
    · rw [if_neg hpy]
      rw [ih (n + 1) k p]
      congr 1
      cases hys : lastMax (ys.map f) with
      | none =>
        simp only [List.map_cons, lastMax, hys]
        rw [if_neg hpy]
      | some jm =>
        obtain ⟨j, m⟩ := jm
        simp only [List.map_cons, lastMax, hys]
        by_cases hmy : m < f y
        · rw [if_pos hmy]
          simp only [if_neg hpy, if_neg (by omega : ¬ f p ≤ m)]
        · rw [if_neg hmy]
          by_cases hpm : f p ≤ m
          · simp only [if_pos hpm]
            simp only [Option.some.injEq, Prod.mk.injEq]
            exact ⟨by omega, trivial⟩
          · simp only [if_neg hpm]

lemma maxByKey_enum_eq_lastMax (f : α → Int) (l : List α) :
    (maxByKey (fun pr : Nat × α => f pr.2) l.enum).map (fun q => (q.1, f q.2)) =
      lastMax (l.map f) := by
  cases l with
  | nil => rfl
  | cons x xs =>
    rw [List.enum_cons]
    rw [maxByKey_cons_enumFrom f xs 1 0 x]
    cases hys : lastMax (xs.map f) with
    | none => simp [lastMax, hys]
    | some jm =>
      obtain ⟨j, m⟩ := jm
      simp only [List.map_cons, lastMax, hys]
      by_cases hmx : m < f x
      · rw [if_pos hmx]
        simp only [if_neg (by omega : ¬ f x ≤ m)]
      · rw [if_neg hmx]
        simp only [if_pos (by omega : f x ≤ m)]
        simp only [Option.some.injEq, Prod.mk.injEq]
        exact ⟨by omega, trivial⟩

lemma lastMax_spec : ∀ (l : List Int), l ≠ [] → ∃ j m, lastMax l = some (j, m) ∧
    j < l.length ∧ l.getD j 0 = m ∧ (∀ i, i < l.length → l.getD i 0 ≤ m) ∧
    (∀ i, j < i → i < l.length → l.getD i 0 < m) := by
  intro l
  induction l with
  | nil => intro h; exact absurd rfl h
  | cons x xs ih =>
    intro _
    by_cases hxs : xs = []
    · subst hxs
      refine ⟨0, x, by simp [lastMax], by simp, by simp, ?le1, ?lt1⟩
      case le1 =>
        intro i hi
        have : i = 0 := by simpa using Nat.lt_one_iff.mp (by simpa using hi)
        subst this
        simp
      case lt1 =>
        intro i hpos hi
        simp at hi
        omega
    · obtain ⟨j, m, hjm, hlt, hget, hle, hstrict⟩ := ih hxs
      simp only [lastMax, hjm]
      by_cases hmx : m < x
      · rw [if_pos hmx]
        refine ⟨0, x, rfl, by simp, by simp, ?le2, ?lt2⟩
        case le2 =>
          intro i hi
          cases i with
          | zero => simp
          | succ i =>
            simp only [List.getD_cons_succ]
            have := hle i (by simpa using hi)
            omega
        case lt2 =>
          intro i hpos hi
          cases i with
          | zero => omega
          | succ i =>
            simp only [List.getD_cons_succ]
            have := hle i (by simpa using hi)
            omega
      · rw [if_neg hmx]
        refine ⟨j + 1, m, rfl, by simpa using hlt, by simpa using hget, ?le3, ?lt3⟩
        case le3 =>
          intro i hi
          cases i with
          | zero => simp; omega
          | succ i =>
            simp only [List.getD_cons_succ]
            exact hle i (by simpa using hi)
        case lt3 =>
          intro i hji hi
          cases i with
          | zero => omega
          | succ i =>
            simp only [List.getD_cons_succ]
            exact hstrict i (by omega) (by simpa using hi)

lemma getD_map_lt (f : α → β) : ∀ (l : List α) (i : Nat), i < l.length →
    ∀ (d : β) (d' : α), (l.map f).getD i d = f (l.getD i d') := by
  intro l
  induction l with
  | nil => intro i hi; simp at hi
  | cons x xs ih =>
    intro i hi d d'
    cases i with
    | zero => simp
    | succ i =>
      simp only [List.map_cons, List.getD_cons_succ]
      exact ih i (by simpa using hi) d d'

/-- C4 (amended): once all players have exactly 2 face-up cards, the player
assigned to `current_player_idx` by the first-player determination is one with
the highest 2-card score, and when several players tie for the highest score
the LAST such player in iteration order (the highest index) is chosen, because
Rust `max_by_key` returns the last maximal element. -/
theorem first_player_highest_score_last_tiebreak (ctx : GameContext)
    (hne : ctx.players ≠ [])
    (hall : ∀ p ∈ ctx.players, p.spread.flippedCards = 2) :
    ∃ i, check_if_first_player_determined ctx = some i ∧
      i < ctx.players.length ∧
      (∀ j, j < ctx.players.length →
        (ctx.players.getD j (Player.new "")).spread.score ≤
          (ctx.players.getD i (Player.new "")).spread.score) ∧
      (∀ j, i < j → j < ctx.players.length →
        (ctx.players.getD j (Player.new "")).spread.score <
          (ctx.players.getD i (Player.new "")).spread.score) := by
  have hcond : ctx.players.all (fun p => p.spread.flippedCards == 2) = true := by
    rw [List.all_eq_true]
    intro p hp
    simpa using hall p hp
  have hmap := maxByKey_enum_eq_lastMax (fun p : Player => p.spread.score) ctx.players
  have hnil : ctx.players.map (fun p : Player => p.spread.score) ≠ [] := by
    simpa using hne
  obtain ⟨j, m, hjm, hlt, hget, hle, hstrict⟩ :=
    lastMax_spec (ctx.players.map (fun p : Player => p.spread.score)) hnil
  rw [hjm] at hmap
  obtain ⟨q, hq, hq2⟩ := Option.map_eq_some'.mp hmap
  have hq1 : q.1 = j := congrArg Prod.fst hq2
  refine ⟨j, ?check, by simpa using hlt, ?max, ?last⟩
  case check =>
    rw [check_if_first_player_determined, if_pos hcond, hq]
    simp [hq1]
  case max =>
    intro i hi
    have h1 := hle i (by simpa using hi)
    rw [getD_map_lt (fun p : Player => p.spread.score) ctx.players i hi 0
      (Player.new "")] at h1
    have h2 := hget
    rw [getD_map_lt (fun p : Player => p.spread.score) ctx.players j
      (by simpa using hlt) 0 (Player.new "")] at h2
    rw [h2]
    exact h1
  case last =>
    intro i hji hi
    have h1 := hstrict i hji (by simpa using hi)
    rw [getD_map_lt (fun p : Player => p.spread.score) ctx.players i hi 0
      (Player.new "")] at h1
    have h2 := hget
    rw [getD_map_lt (fun p : Player => p.spread.score) ctx.players j
      (by simpa using hlt) 0 (Player.new "")] at h2
    rw [h2]
    exact h1

/-- A full spread with exactly the first two cards (3 and 4) face-up. -/
def spreadTwoFlipped : PlayerSpread := ⟨[
  [some ⟨3, true⟩, some ⟨4, true⟩, some ⟨5, false⟩, some ⟨6, false⟩],
  [some ⟨7, false⟩, some ⟨7, false⟩, some ⟨7, false⟩, some ⟨7, false⟩],
  [some ⟨8, false⟩, some ⟨8, false⟩, some ⟨8, false⟩, some ⟨8, false⟩]]⟩

/-- A full spread with only the 3 face-up; flipping cell (0, 1) turns it into
a two-card score of 7, tying `spreadTwoFlipped`. -/
def spreadOneFlipped : PlayerSpread := ⟨[
  [some ⟨3, true⟩, some ⟨4, false⟩, some ⟨5, false⟩, some ⟨6, false⟩],
  [some ⟨7, false⟩, some ⟨7, false⟩, some ⟨7, false⟩, some ⟨7, false⟩],
  [some ⟨8, false⟩, some ⟨8, false⟩, some ⟨8, false⟩, some ⟨8, false⟩]]⟩

/-- A two-player game in the `DetermineFirstPlayer` phase where the final flip
produces a 7-to-7 tie for the highest two-card score. -/
def gTie : StratoGame := ⟨.DetermineFirstPlayer,
  ⟨[⟨"p0", none, spreadTwoFlipped⟩, ⟨"p1", none, spreadOneFlipped⟩],
   none, [Card.new 9], [Card.new 2], 0, none, none⟩⟩

/-- Counterexample to C4 as stated: in `gTie`, the final determining flip
leaves both players with exactly two face-up cards and equal scores 7, yet
`current_player_idx` becomes `some 1` — the LAST tied player — not the first
player in iteration order (index 0) that the claim asserts. -/
theorem first_player_tiebreak_counterexample :
    (player_flip_to_determine_who_is_first gTie "p1" 0 1).1 = none ∧
    (player_flip_to_determine_who_is_first gTie "p1" 0 1).2.state = GameState.Active ∧
    (((player_flip_to_determine_who_is_first gTie "p1" 0 1).2.context.players.getD 0
        (Player.new "")).spread.flippedCards = 2 ∧
      ((player_flip_to_determine_who_is_first gTie "p1" 0 1).2.context.players.getD 1
        (Player.new "")).spread.flippedCards = 2) ∧
    ((player_flip_to_determine_who_is_first gTie "p1" 0 1).2.context.players.getD 0
        (Player.new "")).spread.score =
      ((player_flip_to_determine_who_is_first gTie "p1" 0 1).2.context.players.getD 1
        (Player.new "")).spread.score ∧
    (player_flip_to_determine_who_is_first gTie "p1" 0 1).2.context.current_player_idx
      = some 1 := by
  decide

/-- The context of `gTie` after the final flip: both players hold exactly two
face-up cards with tied scores. -/
def ctxTie : GameContext :=
  ⟨[⟨"p0", none, spreadTwoFlipped⟩, ⟨"p1", none, spreadTwoFlipped⟩],
   none, [Card.new 9], [Card.new 2], 0, none, none⟩

/-- Witness for the amended C4 theorem at the concrete tied context. -/
theorem first_player_highest_score_last_tiebreak_witness :
    (ctxTie.players ≠ [] ∧ ∀ p ∈ ctxTie.players, p.spread.flippedCards = 2) ∧
    (∃ i, check_if_first_player_determined ctxTie = some i ∧
      i < ctxTie.players.length ∧
      (∀ j, j < ctxTie.players.length →
        (ctxTie.players.getD j (Player.new "")).spread.score ≤
          (ctxTie.players.getD i (Player.new "")).spread.score) ∧
      (∀ j, i < j → j < ctxTie.players.length →
        (ctxTie.players.getD j (Player.new "")).spread.score <
          (ctxTie.players.getD i (Player.new "")).spread.score)) :=
  ⟨⟨by decide, by decide⟩,
    first_player_highest_score_last_tiebreak ctxTie (by decide) (by decide)⟩

/-- A fully face-up spread (a finished player). -/
def spreadAllFlippedOnes : PlayerSpread := ⟨[
  [some ⟨1, true⟩, some ⟨1, true⟩, some ⟨2, true⟩, some ⟨2, true⟩],
  [some ⟨3, true⟩, some ⟨3, true⟩, some ⟨4, true⟩, some ⟨4, true⟩],
  [some ⟨5, true⟩, some ⟨5, true⟩, some ⟨6, true⟩, some ⟨6, true⟩]]⟩

/-- A two-player game in `LastRound`: player 1 finished (all face-up, recorded
as `finisher_idx`), and player 0 — the player immediately preceding the
finisher in turn order — is the current player, mid-turn with a held card. -/
def gLR : StratoGame := ⟨.LastRound,
  ⟨[⟨"p0", some ⟨5, true⟩, spreadOneFlipped⟩, ⟨"p1", none, spreadAllFlippedOnes⟩],
   some 0, [Card.new 9], [Card.new 2], 0, some 1, none⟩⟩

/-- An all-face-up spread except one face-down -2; total after flipping: -2. -/
def spreadLow : PlayerSpread := ⟨[
  [some ⟨0, true⟩, some ⟨0, true⟩, some ⟨0, true⟩, some ⟨0, true⟩],
  [some ⟨0, true⟩, some ⟨0, true⟩, some ⟨0, true⟩, some ⟨0, true⟩],
  [some ⟨0, true⟩, some ⟨0, true⟩, some ⟨0, true⟩, some ⟨-2, false⟩]]⟩

/-- A spread of twelve fives, one still face-down; total after flipping: 60. -/
def spreadHigh : PlayerSpread := ⟨[
  [some ⟨5, true⟩, some ⟨5, true⟩, some ⟨5, true⟩, some ⟨5, true⟩],
  [some ⟨5, true⟩, some ⟨5, true⟩, some ⟨5, true⟩, some ⟨5, true⟩],
  [some ⟨5, true⟩, some ⟨5, true⟩, some ⟨5, true⟩, some ⟨5, false⟩]]⟩

/-- A game that has just entered `Ended`: player 0 has the lowest total (-2
after the final flips), player 1 the highest (60). -/
def gEnded : StratoGame := ⟨.Ended,
  ⟨[⟨"p0", none, spreadLow⟩, ⟨"p1", none, spreadHigh⟩],
   some 0, [Card.new 9], [Card.new 2], 0, some 1, none⟩⟩

/-- C1 is refuted by the code, at two independent points.  First, in the
`LastRound` game `gLR` the acting player immediately preceding the finisher
(index 0 = `last_player_idx 2 1`) holds a card, yet `end_player_turn` rejects
the turn with `GameNotStarted` and changes nothing — the entry guard demands
`Active`, so the claimed `LastRound`-to-`Ended` transition can never run.
Second, the winner computation itself (`handle_end`, evaluated at the `Ended`
game `gEnded`) does flip every remaining card but sets `winner_idx` to the
player with the HIGHEST total spread score (index 1, score 60), not the lowest
(index 0, score -2) as the claim states. -/
theorem last_round_end_turn_never_ends_game :
    (last_player_idx gLR.context.players.length 1 = 0 ∧
      gLR.context.finisher_idx = some 1 ∧
      (gLR.context.players.getD 0 (Player.new "")).holding.isSome = true ∧
      end_player_turn gLR "p0" (.Flip 0 1) = (some .GameNotStarted, gLR)) ∧
    ((handle_end gEnded).context.winner_idx = some 1 ∧
      (∀ p ∈ (handle_end gEnded).context.players, p.spread.isAllFlipped = true) ∧
      ((handle_end gEnded).context.players.getD 0 (Player.new "")).spread.score <
        ((handle_end gEnded).context.players.getD 1 (Player.new "")).spread.score) := by
  decide

/-- C2 is refuted by the code: in the `LastRound` game `gLR` the current
player holds a card, yet `end_player_turn` fails with `GameNotStarted` and
performs no action, because the entry guard accepts only `Active`; the claim
says the call must not fail with `GameNotStarted` in `LastRound`. -/
theorem end_turn_rejected_in_last_round :
    gLR.state = GameState.LastRound ∧
    gLR.context.current_player_idx = some 0 ∧
    (gLR.context.players.getD 0 (Player.new "")).holding.isSome = true ∧
    end_player_turn gLR "p0" (.Flip 0 1) = (some .GameNotStarted, gLR) := by
  decide

/-- An `Active` game whose current player 0 holds a card while cell (0, 0) of
their spread is already face-up. -/
def gFlip : StratoGame := ⟨.Active,
  ⟨[⟨"p0", some ⟨7, true⟩, spreadOneFlipped⟩, ⟨"p1", none, spreadOneFlipped⟩],
   some 0, [Card.new 9], [Card.new 2], 0, none, none⟩⟩

/-- The state `end_player_turn` leaves behind when the flip at the already
face-up cell fails: identical to `gFlip` except the held card is gone. -/
def gFlipAfter : StratoGame := ⟨.Active,
  ⟨[⟨"p0", none, spreadOneFlipped⟩, ⟨"p1", none, spreadOneFlipped⟩],
   some 0, [Card.new 9], [Card.new 2], 0, none, none⟩⟩

/-- C3 is refuted by the code: when the current player holds a card and the
chosen end action fails with a spread error (here Flip at an already face-up
cell, `CardAlreadyFlipped`), the spread and discard pile are indeed unchanged,
but the player no longer holds the card — `release()` emptied the hand before
the action was validated, so the error leaves a partial mutation and the held
card is destroyed, while the claim says the player still holds the same card
and the state is unchanged. -/
theorem end_turn_spread_error_loses_held_card :
    (gFlip.context.players.getD 0 (Player.new "")).holding = some ⟨7, true⟩ ∧
    end_player_turn gFlip "p0" (.Flip 0 0) =
      (some (.PlayerSpreadError .CardAlreadyFlipped), gFlipAfter) ∧
    (gFlipAfter.context.players.getD 0 (Player.new "")).holding = none ∧
    gFlipAfter.context.discard_pile = gFlip.context.discard_pile ∧
    gFlipAfter.context.deck = gFlip.context.deck ∧
    (gFlipAfter.context.players.getD 0 (Player.new "")).spread =
      (gFlip.context.players.getD 0 (Player.new "")).spread := by
  decide

/-- Specification-side add-player operation, written from the spec words
"addPlayer(name): only while WaitingForPlayers; appends a Player; fails with
PlayersListLocked otherwise", used solely to contrast with the source's
`send`, which has no error channel. -/
def addPlayerSpec (g : StratoGame) (id : String) : Except GameStartupError StratoGame :=
  if g.state = GameState.WaitingForPlayers then
    .ok { g with context :=
      { g.context with players := g.context.players ++ [Player.new id] } }
  else .error .PlayersListLocked

/-- A started two-player game (state `Active`). -/
def gActiveSend : StratoGame := ⟨.Active,
  ⟨[⟨"p0", none, spreadOneFlipped⟩, ⟨"p1", none, spreadOneFlipped⟩],
   some 0, [Card.new 9], [Card.new 2], 0, none, none⟩⟩

/-- Counterexample to C6 as stated: on the `Active` game the spec-side
operation fails with `PlayersListLocked`, but the source's `send` returns
normally with the game unchanged — the event is silently dropped and no
`PlayersListLocked` (or any) error reaches the caller, whose call signature
carries no error at all. -/
theorem add_player_no_error_surfaced :
    addPlayerSpec gActiveSend "p3" = .error .PlayersListLocked ∧
    gActiveSend.send (.AddPlayer "p3") = gActiveSend :=
  ⟨rfl, by decide⟩

/-- C6 (amended): adding a player takes effect only while the game is in
`WaitingForPlayers`; in every other state the `AddPlayer` event is silently
ignored — the whole game, in particular the players list, is unchanged and no
`PlayersListLocked` error is reported (the send interface has no error
channel); while in `WaitingForPlayers` it appends one `Player` to the list. -/
theorem add_player_only_while_waiting (g : StratoGame) (id : String) :
    (g.state ≠ GameState.WaitingForPlayers → g.send (.AddPlayer id) = g) ∧
    (g.state = GameState.WaitingForPlayers →
      (g.send (.AddPlayer id)).context.players =
        g.context.players ++ [Player.new id] ∧
      (g.send (.AddPlayer id)).state = g.state) := by
  constructor
  · intro h
    simp [StratoGame.send, h]
  · intro h
    simp [StratoGame.send, h]

/-- Witness for the amended C6 theorem: both branches at concrete games. -/
theorem add_player_only_while_waiting_witness :
    (gActiveSend.state ≠ GameState.WaitingForPlayers ∧
      gActiveSend.send (.AddPlayer "p3") = gActiveSend) ∧
    (StratoGame.new.state = GameState.WaitingForPlayers ∧
      (StratoGame.new.send (.AddPlayer "a")).context.players =
        StratoGame.new.context.players ++ [Player.new "a"]) :=
  ⟨⟨by decide, (add_player_only_while_waiting gActiveSend "p3").1 (by decide)⟩,
   ⟨rfl, ((add_player_only_while_waiting StratoGame.new "a").2 rfl).1⟩⟩

lemma flatten_set_multiset {β : Type} : ∀ (g : List (List β)) (i : Nat) (rw rw' : List β),
    g.get? i = some rw →
    (↑((g.set i rw').flatten) : Multiset β) + ↑rw = ↑g.flatten + ↑rw' := by
  intro g
  induction g with
  | nil => intro i rw rw' h; simp at h
  | cons hd tl ih =>
    intro i rw rw' h
    cases i with
    | zero =>
      have : hd = rw := by simpa using h
      subst this
      simp only [List.set, List.flatten_cons, ← Multiset.coe_add]
      abel
    | succ i =>
      simp only [List.get?] at h
      simp only [List.set, List.flatten_cons, ← Multiset.coe_add]
      have := ih i rw rw' h
      calc (↑hd + ↑((tl.set i rw').flatten) : Multiset β) + ↑rw
          = ↑hd + (↑((tl.set i rw').flatten) + ↑rw) := by abel
        _ = ↑hd + (↑tl.flatten + ↑rw') := by rw [this]
        _ = ↑hd + ↑tl.flatten + ↑rw' := by abel

lemma place_at_empty {sp : PlayerSpread} {row column : Nat} (card : Card)
    (h : sp.cellAt row column = some none) :
    ∃ sp', sp.place_at card row column = .ok sp' ∧
      sp'.cellAt row column = some (some card) ∧
      (∀ r c, ¬(r = row ∧ c = column) → sp'.cellAt r c = sp.cellAt r c) ∧
      (↑sp'.remainList : Multiset Card) = card ::ₘ ↑sp.remainList := by
  rw [PlayerSpread.cellAt] at h
  cases hr : sp.grid.get? row with
  | none => rw [hr] at h; exact absurd h (by simp)
  | some rw0 =>
    rw [hr] at h
    simp only at h
    have hrowlt : row < sp.grid.length := (List.get?_eq_some.mp hr).1
    have hcollt : column < rw0.length := (List.get?_eq_some.mp h).1
    refine ⟨⟨sp.grid.set row (rw0.set column (some card))⟩, ?ok, ?cell, ?frame, ?ms⟩
    case ok =>
      rw [PlayerSpread.place_at, hr]
      simp only
      rw [h]
    case cell =>
      rw [PlayerSpread.cellAt]
      simp only
      rw [List.get?_set_eq_of_lt _ hrowlt]
      simp only
      rw [List.get?_set_eq_of_lt _ hcollt]
    case frame =>
      intro r c hrc
      rw [PlayerSpread.cellAt, PlayerSpread.cellAt]
      simp only
      by_cases hrr : r = row
      · subst hrr
        have hcc : c ≠ column := fun hc => hrc ⟨rfl, hc⟩
        rw [List.get?_set_eq_of_lt _ hrowlt, hr]
        simp only
        rw [List.get?_set_ne _ _ (fun he => hcc he.symm)]
      · rw [List.get?_set_ne _ _ (fun he => hrr he.symm)]
    case ms =>
      -- relate the flattened grids, then push through `filterMap id`
      have hflat : (↑((sp.grid.set row (rw0.set column (some card))).flatten)
          : Multiset (Option Card)) + ↑rw0 =
          ↑sp.grid.flatten + ↑(rw0.set column (some card)) :=
        flatten_set_multiset sp.grid row rw0 (rw0.set column (some card)) hr
      have hrow : (none : Option Card) ::ₘ ↑(rw0.set column (some card)) =
          (some card) ::ₘ (↑rw0 : Multiset (Option Card)) :=
        set_cons_multiset rw0 column none (some card) h
      -- convert both facts to list permutations
      have hflatperm : ((sp.grid.set row (rw0.set column (some card))).flatten ++ rw0).Perm
          (sp.grid.flatten ++ rw0.set column (some card)) := by
        apply Multiset.coe_eq_coe.mp
        rw [← Multiset.coe_add, ← Multiset.coe_add]
        exact hflat
      have hrowperm : ((none : Option Card) :: rw0.set column (some card)).Perm
          ((some card) :: rw0) := by
        apply Multiset.coe_eq_coe.mp
        rw [← Multiset.cons_coe, ← Multiset.cons_coe]
        exact hrow
      have h1 := hflatperm.filterMap id
      rw [List.filterMap_append, List.filterMap_append] at h1
      have h2 : ((rw0.set column (some card)).filterMap id).Perm
          (card :: rw0.filterMap id) := by
        have := hrowperm.filterMap id
        simpa using this
      have h2m : (↑((rw0.set column (some card)).filterMap id) : Multiset Card) =
          card ::ₘ ↑(rw0.filterMap id) := by
        have := Multiset.coe_eq_coe.mpr h2
        rw [Multiset.cons_coe]
        exact this
      have h1m := Multiset.coe_eq_coe.mpr h1
      rw [← Multiset.coe_add, ← Multiset.coe_add] at h1m
      rw [PlayerSpread.remainList, PlayerSpread.remainList]
      simp only
      have key : (↑((sp.grid.set row (rw0.set column (some card))).flatten.filterMap id)
          : Multiset Card) + ↑(rw0.filterMap id) =
          (card ::ₘ ↑(sp.grid.flatten.filterMap id)) + ↑(rw0.filterMap id) := by
        rw [h1m, h2m]
        rw [← Multiset.singleton_add, ← Multiset.singleton_add]
        abel
      exact add_right_cancel key

lemma dealFold_ok : ∀ (ps : List (Nat × Nat)) (sp : PlayerSpread) (d : List Card),
    ps.Nodup → (∀ rc ∈ ps, sp.cellAt rc.1 rc.2 = some none) → ps.length ≤ d.length →
    ∃ (sp' : PlayerSpread) (d' dealt : List Card), dealFold ps sp d = (none, sp', d') ∧
      d'.length + ps.length = d.length ∧
      (∀ x ∈ d', x ∈ d) ∧
      (∀ x ∈ dealt, x ∈ d) ∧
      (↑sp'.remainList : Multiset Card) = ↑dealt + ↑sp.remainList ∧
      dealt.length = ps.length ∧
      (∀ r c, (r, c) ∉ ps → sp'.cellAt r c = sp.cellAt r c) := by
  intro ps
  induction ps with
  | nil =>
    intro sp d _ _ _
    exact ⟨sp, d, [], rfl, by simp, fun x hx => hx, by simp, by simp, rfl,
      fun r c _ => rfl⟩
  | cons rc rest ih =>
    intro sp d hnd hcells hlen
    obtain ⟨row, column⟩ := rc
    have hdne : d ≠ [] := by
      intro hd
      subst hd
      simp at hlen
    obtain ⟨card, d1, hpop⟩ := vecPop_some_of_ne_nil hdne
    have hd1len : d.length = d1.length + 1 := vecPop_length hpop
    have hcell : sp.cellAt row column = some none := hcells (row, column) (by simp)
    obtain ⟨sp1, hplace, hcell1, hframe1, hms1⟩ := place_at_empty card hcell
    have hndrest : rest.Nodup := (List.nodup_cons.mp hnd).2
    have hhead : (row, column) ∉ rest := (List.nodup_cons.mp hnd).1
    have hcellsrest : ∀ rc ∈ rest, sp1.cellAt rc.1 rc.2 = some none := by
      intro rc hrc
      rw [hframe1 rc.1 rc.2 (by
        intro hrceq
        apply hhead
        have : rc = (row, column) := by
          obtain ⟨a, b⟩ := rc
          simp only at hrceq
          simp [hrceq.1, hrceq.2]
        rwa [this] at hrc)]
      exact hcells rc (List.mem_cons_of_mem _ hrc)
    obtain ⟨sp', d', dealt, hfold, hlen', hdsub, hdealtsub, hms, hdealtlen, hframe⟩ :=
      ih sp1 d1 hndrest hcellsrest (by simp at hlen; omega)
    refine ⟨sp', d', card :: dealt, ?fold, by simp; omega, ?dsub, ?dealtsub, ?ms,
      by simp [hdealtlen], ?frame⟩
    case fold =>
      rw [dealFold, hpop]
      simp only
      rw [hplace]
      exact hfold
    case dsub =>
      intro x hx
      exact vecPop_subset hpop x (hdsub x hx)
    case dealtsub =>
      intro x hx
      rcases List.mem_cons.mp hx with hx | hx
      · rw [hx]; exact vecPop_mem hpop
      · exact vecPop_subset hpop x (hdealtsub x hx)
    case ms =>
      rw [hms, hms1, ← Multiset.cons_coe, ← Multiset.singleton_add,
        ← Multiset.singleton_add]
      abel
    case frame =>
      intro r c hrc
      have hne1 : (r, c) ∉ rest := fun hmem => hrc (List.mem_cons_of_mem _ hmem)
      have hne2 : ¬(r = row ∧ c = column) := by
        intro hand
        apply hrc
        simp [hand.1, hand.2]
      rw [hframe r c hne1, hframe1 r c hne2]

lemma dealAll_ok : ∀ (players : List Player) (d : List Card),
    (∀ p ∈ players, p.spread = PlayerSpread.new) → 12 * players.length ≤ d.length →
    ∃ players' d', dealAll players d = (none, players', d') ∧
      d'.length + 12 * players.length = d.length ∧
      (∀ x ∈ d', x ∈ d) ∧
      players'.map Player.id = players.map Player.id ∧
      players'.map Player.holding = players.map Player.holding ∧
      (∀ p' ∈ players', p'.spread.remainList.length = 12 ∧
        ∀ x ∈ p'.spread.remainList, x ∈ d) := by
  intro players
  induction players with
  | nil =>
    intro d _ _
    exact ⟨[], d, rfl, by simp, fun x hx => hx, rfl, rfl, by simp⟩
  | cons p rest ih =>
    intro d hsp hlen
    have hpnew : p.spread = PlayerSpread.new := hsp p (by simp)
    have hnodup : dealPositions.Nodup := by decide
    have hcells : ∀ rc ∈ dealPositions, p.spread.cellAt rc.1 rc.2 = some none := by
      rw [hpnew]
      decide
    have hpslen : dealPositions.length = 12 := by decide
    obtain ⟨sp1, d1, dealt, hfold, hlen1, hdsub1, hdealtsub, hms, hdealtlen, _⟩ :=
      dealFold_ok dealPositions p.spread d hnodup hcells (by simp at hlen ⊢; omega)
    obtain ⟨rest', d', hrest, hlen', hdsub', hids, hholds, hspreads⟩ :=
      ih d1 (fun q hq => hsp q (List.mem_cons_of_mem _ hq)) (by simp at hlen ⊢; omega)
    refine ⟨{ p with spread := sp1 } :: rest', d', ?deal, by simp at hlen ⊢; omega,
      ?dsub, by simp [hids], by simp [hholds], ?spreads⟩
    case deal =>
      rw [dealAll, hfold]
      simp only
      rw [hrest]
    case dsub =>
      intro x hx
      exact hdsub1 x (hdsub' x hx)
    case spreads =>
      intro q hq
      rcases List.mem_cons.mp hq with hq | hq
      · subst hq
        constructor
        · have hcard := congrArg Multiset.card hms
          rw [hpnew] at hcard
          simp only [Multiset.coe_card] at hcard
          simp only [Multiset.card_add, Multiset.coe_card] at hcard
          have : PlayerSpread.new.remainList.length = 0 := by decide
          simp only
          omega
        · intro x hx
          simp only at hx
          have hxm : x ∈ (↑sp1.remainList : Multiset Card) := Multiset.mem_coe.mpr hx
          rw [hms, hpnew] at hxm
          have : PlayerSpread.new.remainList = [] := by decide
          rw [this] at hxm
          simp only [Multiset.mem_add] at hxm
          rcases hxm with hxm | hxm
          · exact hdealtsub x (Multiset.mem_coe.mp hxm)
          · simp at hxm
      · obtain ⟨h12, hsub⟩ := hspreads q hq
        exact ⟨h12, fun x hx => hdsub1 x (hsub x hx)⟩

lemma handle_start_started (g : StratoGame) (idx : Nat) (r : Rand)
    (hw : g.state = GameState.WaitingForPlayers)
    (hn : 2 ≤ g.context.players.length)
    (hsp : ∀ p ∈ g.context.players, p.spread = PlayerSpread.new)
    (hd10 : 10 ≤ g.context.deck.length)
    (hdeal : 12 * g.context.players.length + 1 ≤ g.context.deck.length) :
    ∃ g', handle_start g ⟨some idx⟩ r = some (none, g') ∧
      g'.state = GameState.Active ∧
      g'.context.current_player_idx = some idx ∧
      g'.context.players.map Player.id = g.context.players.map Player.id ∧
      g'.context.players.map Player.holding = g.context.players.map Player.holding ∧
      (∀ p' ∈ g'.context.players, p'.spread.remainList.length = 12 ∧
        ∀ x ∈ p'.spread.remainList, x ∈ g.context.deck) ∧
      g'.context.discard_pile.length = g.context.discard_pile.length + 1 ∧
      g'.context.deck.length + 1 + 12 * g.context.players.length =
        g.context.deck.length := by
  obtain ⟨deck1, hshuffle⟩ := shuffle_some r hd10
  have hlen1 : deck1.length = g.context.deck.length := shuffle_length hshuffle
  have hmem1 : ∀ x ∈ deck1, x ∈ g.context.deck := shuffle_mem hshuffle
  have hne1 : deck1 ≠ [] := by
    intro h0
    rw [h0] at hlen1
    simp at hlen1
    omega
  obtain ⟨top, deck2, hpop⟩ := vecPop_some_of_ne_nil hne1
  have hlen2 := vecPop_length hpop
  obtain ⟨players', deck3, hdall, hlen3, hsub3, hids, hholds, hspreads⟩ :=
    dealAll_ok g.context.players deck2 hsp (by omega)
  refine ⟨⟨GameState.Active, { g.context with
      players := players'
      deck := deck3
      discard_pile := g.context.discard_pile ++ [top]
      current_player_idx := some idx }⟩, ?eq, rfl, rfl, hids, hholds, ?spreads,
    by simp,
    by show deck3.length + 1 + 12 * g.context.players.length = g.context.deck.length
       omega⟩
  case eq =>
    rw [handle_start, hw]
    rw [if_neg (by decide), if_neg (by omega), if_pos rfl, hshuffle]
    simp only
    rw [hpop]
    simp only
    rw [deal_cards_to_players, if_pos rfl, hdall]
  case spreads =>
    intro p' hp'
    obtain ⟨h12, hsub⟩ := hspreads p' hp'
    exact ⟨h12, fun x hx => hmem1 x (vecPop_subset hpop x (hsub x hx))⟩

/-- The game after registering two players "p1" and "p2" from a fresh game. -/
def gTwoPlayers : StratoGame :=
  (StratoGame.new.send (.AddPlayer "p1")).send (.AddPlayer "p2")

/-- C5: starting the 2-player game with a fixed first-player index of 0
succeeds for every sequence of random choices and leaves the game `Active`
with `current_player_idx = 0`, each spread holding exactly 12 present
face-down cards, the discard pile holding exactly 1 card, and the deck
holding exactly 150 - 24 - 1 = 125 cards. -/
theorem start_two_players_fixed_first (r : Rand) :
    ∃ g', start_with_options gTwoPlayers ⟨some 0⟩ r = some (none, g') ∧
      g'.state = GameState.Active ∧
      g'.context.current_player_idx = some 0 ∧
      g'.context.players.length = 2 ∧
      (∀ p' ∈ g'.context.players, p'.spread.remainList.length = 12 ∧
        p'.spread.flippedCards = 0) ∧
      g'.context.discard_pile.length = 1 ∧
      g'.context.deck.length = 125 := by
  obtain ⟨g', heq, hst, hcur, hids, hholds, hspreads, hdisc, hdeck⟩ :=
    handle_start_started gTwoPlayers 0 r rfl (by decide) (by decide) (by decide)
      (by decide)
  have hplen : gTwoPlayers.context.players.length = 2 := by decide
  have hdlen : gTwoPlayers.context.deck.length = 150 := by decide
  have hdisclen : gTwoPlayers.context.discard_pile.length = 0 := by decide
  have hunf : ∀ x ∈ gTwoPlayers.context.deck, x.flipped = false := by decide
  refine ⟨g', heq, hst, hcur, ?plen, ?spr, by omega, by omega⟩
  case plen =>
    have := congrArg List.length hids
    simpa [hplen] using this
  case spr =>
    intro p' hp'
    obtain ⟨h12, hsub⟩ := hspreads p' hp'
    refine ⟨h12, ?flip⟩
    rw [PlayerSpread.flippedCards, List.countP_eq_zero]
    intro a ha
    simp [hunf a (hsub a ha)]

/-- C10: `start_with_options` does not validate the supplied first-player
index.  For every waiting game with at least two freshly registered players
and a deck able to cover the deal, and every index at or beyond the player
count, the call returns Ok, enters `Active`, stores the out-of-range index in
`current_player_idx`, and afterwards every `start_player_turn` call by any
registered player fails with `NotYourTurn`. -/
theorem start_with_options_unvalidated_index (g : StratoGame) (idx : Nat) (r : Rand)
    (hw : g.state = GameState.WaitingForPlayers)
    (hn : 2 ≤ g.context.players.length)
    (hsp : ∀ p ∈ g.context.players, p.spread = PlayerSpread.new)
    (hd10 : 10 ≤ g.context.deck.length)
    (hdeal : 12 * g.context.players.length + 1 ≤ g.context.deck.length)
    (hidx : g.context.players.length ≤ idx) :
    ∃ g', start_with_options g ⟨some idx⟩ r = some (none, g') ∧
      g'.state = GameState.Active ∧
      g'.context.current_player_idx = some idx ∧
      (∀ pid ∈ g.context.players.map Player.id, ∀ a,
        start_player_turn g' pid a = (some .NotYourTurn, g')) := by
  obtain ⟨g', heq, hst, hcur, hids, hholds, hspreads, hdisc, hdeck⟩ :=
    handle_start_started g idx r hw hn hsp hd10 hdeal
  have hplen : g'.context.players.length = g.context.players.length := by
    have := congrArg List.length hids
    simpa using this
  refine ⟨g', heq, hst, hcur, ?turn⟩
  intro pid hpid a
  have hpid' : pid ∈ g'.context.players.map Player.id := by rw [hids]; exact hpid
  obtain ⟨p', hp'mem, hp'id⟩ := List.mem_map.mp hpid'
  have hany : (g'.context.players.findIdx? (fun p => p.id = pid)).isSome := by
    rw [List.findIdx?_isSome, List.any_eq_true]
    exact ⟨p', hp'mem, by simp [hp'id]⟩
  obtain ⟨j, hfind⟩ := Option.isSome_iff_exists.mp hany
  have hjlt : j < g'.context.players.length :=
    (List.findIdx?_eq_some_iff_findIdx_eq.mp hfind).1
  have hne : j ≠ idx := by omega
  have hcheck : check_if_player_turn g'.context j = some .NotYourTurn := by
    rw [check_if_player_turn, hcur]
    simp only
    rw [if_pos hne]
  rw [start_player_turn, if_neg (by simp [hst]), hfind]
  simp only
  rw [hcheck]

/-- Witness for C10 at a concrete game: two registered players, first-player
index 5 (at or beyond the player count 2), the constant-zero random stream. -/
theorem start_with_options_unvalidated_index_witness :
    (gTwoPlayers.state = GameState.WaitingForPlayers ∧
      2 ≤ gTwoPlayers.context.players.length ∧
      (∀ p ∈ gTwoPlayers.context.players, p.spread = PlayerSpread.new) ∧
      10 ≤ gTwoPlayers.context.deck.length ∧
      12 * gTwoPlayers.context.players.length + 1 ≤ gTwoPlayers.context.deck.length ∧
      gTwoPlayers.context.players.length ≤ 5) ∧
    (∃ g', start_with_options gTwoPlayers ⟨some 5⟩ r0 = some (none, g') ∧
      g'.state = GameState.Active ∧
      g'.context.current_player_idx = some 5 ∧
      (∀ pid ∈ gTwoPlayers.context.players.map Player.id, ∀ a,
        start_player_turn g' pid a = (some .NotYourTurn, g'))) :=
  ⟨⟨rfl, by decide, by decide, by decide, by decide, by decide⟩,
    start_with_options_unvalidated_index gTwoPlayers 5 r0 rfl (by decide) (by decide)
      (by decide) (by decide) (by decide)⟩

lemma findIdx?_lt_length {l : List α} {p : α → Bool} {i : Nat}
    (h : l.findIdx? p = some i) : i < l.length :=
  (List.findIdx?_eq_some_iff_findIdx_eq.mp h).1

lemma send_round (g : StratoGame) (e : GameEvent) :
    (g.send e).context.round = g.context.round := by
  cases e with
  | AddPlayer id =>
    rw [StratoGame.send]
    split <;> rfl

lemma handle_end_round (g : StratoGame) :
    (handle_end g).context.round = g.context.round := by
  rw [handle_end]
  split
  · rfl
  · simp only
    split <;> rfl

lemma advance_player_turn_round (ctx : GameContext) :
    (advance_player_turn ctx).round = ctx.round := by
  rw [advance_player_turn]
  split <;> rfl

lemma end_turn_tail_round (state : GameState) (player_idx players_count : Nat)
    (player3 : Player) (ctx1 : GameContext)
    (hlt : player_idx < ctx1.players.length) :
    (end_turn_tail state player_idx players_count player3 ctx1).2.context.round =
      ctx1.round := by
  rw [end_turn_tail]
  have hafter : ∀ stc : GameState × GameContext,
      stc.2.players.length = ctx1.players.length → stc.2.round = ctx1.round →
      ((⟨stc.1, advance_player_turn
        (if player_idx = stc.2.players.length then advance_round stc.2 else stc.2)⟩ :
        StratoGame)).context.round = ctx1.round := by
    intro stc hlen hr
    rw [if_neg (by omega)]
    rw [advance_player_turn_round]
    exact hr
  split
  · split
    · split
      · rw [handle_end_round]
      · split
        · exact hafter _ rfl rfl
        · exact hafter _ rfl rfl
    · split
      · exact hafter _ rfl rfl
      · exact hafter _ rfl rfl
  · split
    · exact hafter _ rfl rfl
    · exact hafter _ rfl rfl

lemma handle_start_round {g : StratoGame} {options : GameOptions} {r : Rand}
    {e : Option GameStartupError} {g' : StratoGame}
    (h : handle_start g options r = some (e, g')) :
    g'.context.round = g.context.round := by
  rw [handle_start] at h
  repeat' split at h
  all_goals
    first
      | exact Option.noConfusion h
      | (injection h with h'
         injection h' with h1 h2
         subst h2
         rfl)

lemma player_flip_round (g : StratoGame) (pid : String) (row column : Nat) :
    (player_flip_to_determine_who_is_first g pid row column).2.context.round =
      g.context.round := by
  rw [player_flip_to_determine_who_is_first]
  repeat' split
  all_goals try rfl
  all_goals (simp only; split <;> rfl)

lemma start_player_turn_round (g : StratoGame) (pid : String) (a : StartAction) :
    (start_player_turn g pid a).2.context.round = g.context.round := by
  rw [start_player_turn]
  repeat' split
  all_goals rfl

lemma end_player_turn_round (g : StratoGame) (pid : String) (a : EndAction) :
    (end_player_turn g pid a).2.context.round = g.context.round := by
  rw [end_player_turn]
  split
  · rfl
  · cases hfind : g.context.players.findIdx? (fun p => p.id = pid) with
    | none => rfl
    | some player_idx =>
      have hlt : player_idx < g.context.players.length := findIdx?_lt_length hfind
      simp only
      split
      · rfl
      · split
        · rfl
        · split
          · rfl
          · split
            · rfl
            · rw [end_turn_tail_round _ _ _ _ _ (by simpa using hlt)]

/-- Reachability of a game state through the public operations of the engine:
a fresh game, `send`, `handle_start` (so `start` and `start_with_options`),
the first-player flips, and the start and end of player turns. -/
inductive Reachable : StratoGame → Prop where
  | new : Reachable StratoGame.new
  | send (g : StratoGame) (e : GameEvent) : Reachable g → Reachable (g.send e)
  | start (g : StratoGame) (options : GameOptions) (r : Rand)
      (e : Option GameStartupError) (g' : StratoGame) : Reachable g →
      handle_start g options r = some (e, g') → Reachable g'
  | flip (g : StratoGame) (pid : String) (row column : Nat) : Reachable g →
      Reachable (player_flip_to_determine_who_is_first g pid row column).2
  | startTurn (g : StratoGame) (pid : String) (a : StartAction) : Reachable g →
      Reachable (start_player_turn g pid a).2
  | endTurn (g : StratoGame) (pid : String) (a : EndAction) : Reachable g →
      Reachable (end_player_turn g pid a).2

/-- C9: the round counter never changes.  Every reachable game — in
particular the result of every successful `end_player_turn` call — has
`context.round` still at its initial value 0, because the round is only
advanced when the acting player's index equals the player count, and an index
found by position in the players list is always strictly below that count. -/
theorem round_always_zero (g : StratoGame) (h : Reachable g) :
    g.context.round = 0 := by
  induction h with
  | new => rfl
  | send g e _ ih => rw [send_round]; exact ih
  | start g options r e g' _ hs ih => rw [handle_start_round hs]; exact ih
  | flip g pid row column _ ih => rw [player_flip_round]; exact ih
  | startTurn g pid a _ ih => rw [start_player_turn_round]; exact ih
  | endTurn g pid a _ ih => rw [end_player_turn_round]; exact ih

/-- Witness for C9: a reachable game (fresh game after one registration, and
one full end-turn call on it) whose round is 0. -/
theorem round_always_zero_witness :
    Reachable (end_player_turn (StratoGame.new.send (.AddPlayer "a")) "a"
      (.Flip 0 0)).2 ∧
    (end_player_turn (StratoGame.new.send (.AddPlayer "a")) "a"
      (.Flip 0 0)).2.context.round = 0 :=
  ⟨.endTurn _ _ _ (.send _ _ .new),
    round_always_zero _ (.endTurn _ _ _ (.send _ _ .new))⟩

end Strato
